import Mathlib

/-!
Verification of the portfolio dashboard core (src/src/App.js).

The component state and handlers of the single React component are embedded
shallowly: component state becomes an explicit `AppState` record, each handler
becomes a pure function from the state (plus the outcome of the one remote
call it performs) to the next state, and JS numbers are modelled as rationals.
A nullable `current_price` becomes `Option Rat`. The form fields `quantity`
and `buyPrice` hold the text of a numeric input, which is either empty
(falsy, modelled `none`) or a numeral (truthy, modelled `some q`).
-/

/-- A holding as stored in the `stocks` collection (shape used by App.js). -/
structure Stock where
  id : Nat
  name : String
  ticker : String
  quantity : Rat
  buyPrice : Rat
  current_price : Option Rat
deriving DecidableEq, Repr

/-- JS reads `stock.current_price` as a number; `null > 0` is false, so an
unset price compares as ineligible. For arithmetic on filtered stocks the
price is always set; `getD 0` mirrors that access. -/
def Stock.cpVal (s : Stock) : Rat := s.current_price.getD 0

/-- The filter predicate of `fetchPortfolioMetrics`, line 52:
`stock.current_price > 0 && stock.quantity > 0` (with `null > 0 = false`). -/
def isValidStock (s : Stock) : Bool :=
  (match s.current_price with
   | some p => decide (0 < p)
   | none => false) && decide (0 < s.quantity)

/-- `stocks.filter(stock => stock.current_price > 0 && stock.quantity > 0)`. -/
def validStocksOf (stocks : List Stock) : List Stock :=
  stocks.filter isValidStock

/-- `validStocks.reduce((acc, stock) => acc + stock.current_price * stock.quantity, 0)`. -/
def totalValueOf (l : List Stock) : Rat :=
  l.foldl (fun acc s => acc + s.cpVal * s.quantity) 0

/-- One step of the `topStock` reduce:
`(top, stock) => !top || stock.current_price > top.current_price ? stock : top`. -/
def topStep (top : Option Stock) (s : Stock) : Option Stock :=
  match top with
  | none => some s
  | some t => if t.cpVal < s.cpVal then some s else some t

/-- `validStocks.reduce(topStep, null)`. -/
def topStockOf (l : List Stock) : Option Stock :=
  l.foldl topStep none

/-- One entry of `portfolioDistribution`: the spread stock plus its percentage. -/
structure DistEntry where
  stock : Stock
  percentage : Rat
deriving DecidableEq, Repr

/-- `validStocks.map(stock => ({...stock, percentage: stock.current_price * stock.quantity / totalValue * 100}))`. -/
def distributionOf (l : List Stock) (totalValue : Rat) : List DistEntry :=
  l.map (fun s => ⟨s, s.cpVal * s.quantity / totalValue * 100⟩)

/-- The metrics record set by `setPortfolioMetrics`. -/
structure PortfolioMetrics where
  totalValue : Rat
  topStock : Option Stock
  portfolioDistribution : List DistEntry
deriving DecidableEq, Repr

/-- `fetchPortfolioMetrics` (App.js lines 49-79) as a pure function of the
stocks list to the metrics value it stores. The `else` branch stores `null`,
modelled as `none`; the computed-metrics branch stores `some`. -/
def fetchPortfolioMetrics (stocks : List Stock) : Option PortfolioMetrics :=
  if stocks.length > 0 then
    let validStocks := validStocksOf stocks
    let totalValue := totalValueOf validStocks
    some { totalValue := totalValue
         , topStock := topStockOf validStocks
         , portfolioDistribution := distributionOf validStocks totalValue }
  else
    none

/-- The add form state: `name`/`ticker` are text fields, `quantity`/`buyPrice`
are numeric inputs whose text is empty (`none`, falsy) or a numeral
(`some q`, truthy — the text "0" is truthy and only caught by the `<= 0` check). -/
structure StockForm where
  name : String
  ticker : String
  quantity : Option Rat
  buyPrice : Option Rat
deriving DecidableEq, Repr

/-- The blank form `{ name: "", ticker: "", quantity: "", buyPrice: "" }`. -/
def emptyForm : StockForm := ⟨"", "", none, none⟩

/-- The edit buffer: a copied stock whose editable fields have form semantics. -/
structure EditForm where
  id : Nat
  name : String
  ticker : String
  quantity : Option Rat
  buyPrice : Option Rat
  current_price : Option Rat
deriving DecidableEq, Repr

/-- The component state relevant to the store: the stocks collection, the add
form, the edit buffer, the error message, and the stored metrics
(`some` = a metrics record, `none` = the `null` stored for an empty list). -/
structure AppState where
  stocks : List Stock
  newStock : StockForm
  editStock : Option EditForm
  error : Option String
  portfolioMetrics : Option PortfolioMetrics
deriving DecidableEq, Repr

/-- First validation of `handleAddStock`, line 102:
`!newStock.name || !newStock.ticker || !newStock.quantity || !newStock.buyPrice`. -/
def formMissing (f : StockForm) : Bool :=
  f.name == "" || f.ticker == "" || f.quantity.isNone || f.buyPrice.isNone

/-- Second validation, line 106: `newStock.quantity <= 0 || newStock.buyPrice <= 0`. -/
def formNonPositive (f : StockForm) : Bool :=
  decide (f.quantity.getD 0 ≤ 0) || decide (f.buyPrice.getD 0 ≤ 0)

/-- `handleAddStock` (App.js lines 101-122). The remote POST outcome is passed
as `remote`; the returned Bool records whether the network call was made.
On success the response is appended and metrics are recomputed from the
appended list; on remote failure only the error message changes. -/
def handleAddStock (st : AppState) (remote : Except String Stock) :
    AppState × Bool :=
  if formMissing st.newStock then
    ({ st with error := some "Please fill in all fields." }, false)
  else if formNonPositive st.newStock then
    ({ st with error := some "Quantity and Buy Price must be positive numbers." }, false)
  else
    match remote with
    | Except.ok data =>
        ({ st with stocks := st.stocks ++ [data]
                 , newStock := emptyForm
                 , error := none
                 , portfolioMetrics := fetchPortfolioMetrics (st.stocks ++ [data]) }, true)
    | Except.error _ =>
        ({ st with error := some "Failed to add stock." }, true)

/-- The validation view of the edit buffer, lines 136 and 140 (same checks as
the add form, preceded by `!editStock`). -/
def editFormOf (e : EditForm) : StockForm := ⟨e.name, e.ticker, e.quantity, e.buyPrice⟩

/-- `handleSaveEdit` (App.js lines 135-158). On PUT success the element whose
id matches is replaced by the response, the edit buffer is dropped, and
`fetchPortfolioMetrics(stocks)` is called on the captured pre-mutation
`stocks` value (line 153), not on the updated list. The success path does not
touch `error`. -/
def handleSaveEdit (st : AppState) (remote : Except String Stock) :
    AppState × Bool :=
  match st.editStock with
  | none => ({ st with error := some "Please fill in all fields." }, false)
  | some e =>
    if formMissing (editFormOf e) then
      ({ st with error := some "Please fill in all fields." }, false)
    else if formNonPositive (editFormOf e) then
      ({ st with error := some "Quantity and Buy Price must be positive numbers." }, false)
    else
      match remote with
      | Except.ok data =>
          ({ st with stocks := st.stocks.map (fun s => if s.id == e.id then data else s)
                   , editStock := none
                   , portfolioMetrics := fetchPortfolioMetrics st.stocks }, true)
      | Except.error _ =>
          ({ st with error := some "Failed to update stock." }, true)

/-- `handleDeleteStock` (App.js lines 166-175). On DELETE success the element
is filtered out and metrics are recomputed from the filtered list; the success
path does not touch `error`. On failure only the error message changes. -/
def handleDeleteStock (st : AppState) (id : Nat) (remote : Except String Unit) :
    AppState :=
  match remote with
  | Except.ok _ =>
      { st with stocks := st.stocks.filter (fun s => s.id != id)
              , portfolioMetrics :=
                  fetchPortfolioMetrics (st.stocks.filter (fun s => s.id != id)) }
  | Except.error _ =>
      { st with error := some "Failed to delete stock." }

/-- The chart series produced for a non-empty distribution (labels, data and
backgroundColor are parallel arrays built by mapping the distribution). -/
structure ChartData where
  labels : List String
  data : List Rat
  backgroundColor : List String
deriving DecidableEq, Repr

/-- `pieChartData` (App.js lines 82-98). The per-entry random color call is
modelled by a color source indexed by position. When the metrics are `null`
or the distribution is empty the memo returns the empty object `{}`,
modelled as `none` (the empty, neutral series). -/
def pieChartData (pm : Option PortfolioMetrics) (color : Nat → String) :
    Option ChartData :=
  match pm with
  | some m =>
      if m.portfolioDistribution.length > 0 then
        some { labels := m.portfolioDistribution.map (fun d => d.stock.name)
             , data := m.portfolioDistribution.map (fun d => d.percentage)
             , backgroundColor :=
                 (List.range m.portfolioDistribution.length).map color }
      else none
  | none => none

/-! Spec-side notions used to state the claims. -/

/-- The eligibility condition as the spec words it: `currentPrice` set and
strictly positive, and `quantity` strictly positive. -/
def EligibleSpec (s : Stock) : Prop :=
  (∃ p, s.current_price = some p ∧ 0 < p) ∧ 0 < s.quantity

instance (s : Stock) : Decidable (EligibleSpec s) := by
  unfold EligibleSpec
  cases h : s.current_price <;> simp [h] <;> infer_instance

/-! Concrete values used by individual claims. -/

def c1Stock : Stock := ⟨1, "A", "AAA", 1, 1, some 10⟩

def c1Updated : Stock := ⟨1, "A", "AAA", 1, 1, some 20⟩

def c1State : AppState :=
  { stocks := [c1Stock]
  , newStock := emptyForm
  , editStock := some ⟨1, "A", "AAA", some 1, some 1, some 10⟩
  , error := none
  , portfolioMetrics := fetchPortfolioMetrics [c1Stock] }

def c4Stocks : List Stock :=
  [⟨1, "A", "AAA", 1, 1, some 30⟩, ⟨2, "B", "BBB", 1, 1, some 30⟩]

def c5Stocks : List Stock :=
  [⟨1, "A", "AAA", 2, 1, some 10⟩, ⟨2, "B", "BBB", 1, 1, some 30⟩]

def c5Metrics : PortfolioMetrics :=
  ⟨50, some ⟨2, "B", "BBB", 1, 1, some 30⟩,
   [⟨⟨1, "A", "AAA", 2, 1, some 10⟩, 40⟩, ⟨⟨2, "B", "BBB", 1, 1, some 30⟩, 60⟩]⟩

def c6Stocks : List Stock := [⟨1, "A", "AAA", 2, 1, some 10⟩]

def c7State : AppState :=
  { stocks := [⟨1, "A", "AAA", 1, 1, some 10⟩]
  , newStock := ⟨"", "NNN", some 1, some 2⟩
  , editStock := none
  , error := none
  , portfolioMetrics := none }

def c8State : AppState :=
  { stocks := [⟨1, "A", "AAA", 1, 1, some 10⟩]
  , newStock := ⟨"N", "NNN", some 1, some 2⟩
  , editStock := some ⟨1, "A", "AAA", some 2, some 3, some 10⟩
  , error := none
  , portfolioMetrics := none }

def c9State : AppState :=
  { stocks := [⟨1, "A", "AAA", 1, 1, some 10⟩]
  , newStock := emptyForm
  , editStock := none
  , error := some "Failed to add stock."
  , portfolioMetrics := fetchPortfolioMetrics [⟨1, "A", "AAA", 1, 1, some 10⟩] }

def c9ValidState : AppState :=
  { stocks := [⟨1, "A", "AAA", 1, 1, some 10⟩]
  , newStock := ⟨"N", "NNN", some 1, some 2⟩
  , editStock := some ⟨1, "A", "AAA", some 2, some 3, some 10⟩
  , error := some "Failed to update stock."
  , portfolioMetrics := none }

/-! Helper lemmas shared by several claims. -/

lemma totalValueOf_eq_sum (l : List Stock) :
    totalValueOf l = (l.map (fun s => s.cpVal * s.quantity)).sum := by
  suffices h : ∀ a : Rat, l.foldl (fun acc s => acc + s.cpVal * s.quantity) a
      = a + (l.map (fun s => s.cpVal * s.quantity)).sum by
    simpa [totalValueOf] using h 0
  induction l with
  | nil => intro a; simp
  | cons s l ih =>
      intro a
      simp only [List.foldl_cons, List.map_cons, List.sum_cons, ih]
      ring

lemma isValidStock_iff (s : Stock) : isValidStock s = true ↔ EligibleSpec s := by
  unfold isValidStock EligibleSpec
  cases h : s.current_price <;> simp [h]

lemma isValidStock_eq_decide (s : Stock) :
    isValidStock s = decide (EligibleSpec s) := by
  rw [Bool.eq_iff_iff]
  simp [isValidStock_iff]

lemma validStocksOf_eq_spec (stocks : List Stock) :
    validStocksOf stocks = stocks.filter (fun s => decide (EligibleSpec s)) := by
  unfold validStocksOf
  exact List.filter_congr (fun s _ => isValidStock_eq_decide s)

lemma mem_validStocksOf {s : Stock} {stocks : List Stock}
    (h : s ∈ validStocksOf stocks) : isValidStock s = true :=
  (List.mem_filter.1 h).2

lemma valid_cpVal_quantity_pos (s : Stock) (h : isValidStock s = true) :
    0 < s.cpVal * s.quantity := by
  rcases (isValidStock_iff s).1 h with ⟨⟨p, hp, hpos⟩, hq⟩
  have hcp : s.cpVal = p := by simp [Stock.cpVal, hp]
  rw [hcp]
  exact mul_pos hpos hq

lemma totalValueOf_pos (l : List Stock) (hv : ∀ s ∈ l, isValidStock s = true)
    (hne : l ≠ []) : 0 < totalValueOf l := by
  rw [totalValueOf_eq_sum]
  apply List.sum_pos
  · intro x hx
    rcases List.mem_map.1 hx with ⟨s, hs, rfl⟩
    exact valid_cpVal_quantity_pos s (hv s hs)
  · simpa using hne

lemma fetchPortfolioMetrics_eq_some (stocks : List Stock) (hne : stocks ≠ []) :
    fetchPortfolioMetrics stocks
      = some { totalValue := totalValueOf (validStocksOf stocks)
             , topStock := topStockOf (validStocksOf stocks)
             , portfolioDistribution :=
                 distributionOf (validStocksOf stocks)
                   (totalValueOf (validStocksOf stocks)) } := by
  have hlen : 0 < stocks.length := List.length_pos.2 hne
  simp [fetchPortfolioMetrics, hlen]

lemma fetchPortfolioMetrics_nil : fetchPortfolioMetrics [] = none := rfl

/-- The reduce that selects the top stock, characterized: starting from
accumulator `t`, it returns the first element of `t :: l` that attains the
maximum price — every element strictly before it is strictly cheaper, every
element after it is at most as expensive. -/
lemma topAux_first_max (l : List Stock) : ∀ t : Stock,
    ∃ u l1 l2, l.foldl topStep (some t) = some u ∧
      t :: l = l1 ++ u :: l2 ∧
      (∀ v ∈ l1, v.cpVal < u.cpVal) ∧
      (∀ v ∈ l2, v.cpVal ≤ u.cpVal) := by
  induction l with
  | nil =>
      intro t
      exact ⟨t, [], [], rfl, rfl, by simp, by simp⟩
  | cons s l ih =>
      intro t
      by_cases h : t.cpVal < s.cpVal
      · obtain ⟨u, l1, l2, hfold, hsplit, hbefore, hafter⟩ := ih s
        have hsu : s.cpVal ≤ u.cpVal := by
          have hmem : s ∈ l1 ++ u :: l2 := hsplit ▸ List.mem_cons_self s l
          rcases List.mem_append.1 hmem with h1 | h2
          · exact le_of_lt (hbefore s h1)
          · rcases List.mem_cons.1 h2 with rfl | h3
            · exact le_refl _
            · exact hafter s h3
        refine ⟨u, t :: l1, l2, ?_, ?_, ?_, hafter⟩
        · simpa [List.foldl_cons, topStep, h] using hfold
        · simpa using hsplit
        · intro v hv
          rcases List.mem_cons.1 hv with rfl | hv
          · exact lt_of_lt_of_le h hsu
          · exact hbefore v hv
      · obtain ⟨u, l1, l2, hfold, hsplit, hbefore, hafter⟩ := ih t
        have hst : s.cpVal ≤ t.cpVal := le_of_not_lt h
        cases l1 with
        | nil =>
            simp only [List.nil_append, List.cons.injEq] at hsplit
            obtain ⟨rfl, rfl⟩ := hsplit
            refine ⟨t, [], s :: l, ?_, by simp, by simp, ?_⟩
            · simpa [List.foldl_cons, topStep, h] using hfold
            · intro v hv
              rcases List.mem_cons.1 hv with rfl | hv
              · exact hst
              · exact hafter v hv
        | cons w l1 =>
            simp only [List.cons_append, List.cons.injEq] at hsplit
            obtain ⟨rfl, hsplit⟩ := hsplit
            have htu : t.cpVal < u.cpVal := hbefore t (List.mem_cons_self t l1)
            refine ⟨u, t :: s :: l1, l2, ?_, ?_, ?_, hafter⟩
            · simpa [List.foldl_cons, topStep, h] using hfold
            · simp [hsplit]
            · intro v hv
              rcases List.mem_cons.1 hv with rfl | hv
              · exact htu
              · rcases List.mem_cons.1 hv with rfl | hv
                · exact lt_of_le_of_lt hst htu
                · exact hbefore v (List.mem_cons_of_mem t hv)

/-- The top stock of a non-empty list splits the list into a strictly cheaper
prefix, the top stock itself, and a suffix at most as expensive. -/
lemma topStockOf_first_max (l : List Stock) (hne : l ≠ []) :
    ∃ u l1 l2, topStockOf l = some u ∧ l = l1 ++ u :: l2 ∧
      (∀ v ∈ l1, v.cpVal < u.cpVal) ∧
      (∀ v ∈ l2, v.cpVal ≤ u.cpVal) := by
  cases l with
  | nil => exact absurd rfl hne
  | cons t l =>
      obtain ⟨u, l1, l2, hfold, hsplit, hbefore, hafter⟩ := topAux_first_max l t
      refine ⟨u, l1, l2, ?_, hsplit, hbefore, hafter⟩
      simpa [topStockOf, List.foldl_cons, topStep] using hfold

lemma topAux_mem (l : List Stock) : ∀ t u : Stock,
    l.foldl topStep (some t) = some u → u = t ∨ u ∈ l := by
  induction l with
  | nil =>
      intro t u h
      exact Or.inl (Option.some.inj h).symm
  | cons s l ih =>
      intro t u h
      simp only [List.foldl_cons, topStep] at h
      by_cases hc : t.cpVal < s.cpVal
      · rw [if_pos hc] at h
        rcases ih s u h with rfl | hm
        · exact Or.inr (List.mem_cons_self u l)
        · exact Or.inr (List.mem_cons_of_mem s hm)
      · rw [if_neg hc] at h
        rcases ih t u h with rfl | hm
        · exact Or.inl rfl
        · exact Or.inr (List.mem_cons_of_mem s hm)

/-- The selected top stock is always one of the reduced stocks. -/
lemma topStockOf_mem (l : List Stock) (t : Stock) (h : topStockOf l = some t) :
    t ∈ l := by
  cases l with
  | nil => exact absurd h (by simp [topStockOf])
  | cons s l =>
      have hm := topAux_mem l s t (by simpa [topStockOf, List.foldl_cons, topStep] using h)
      rcases hm with rfl | hm
      · exact List.mem_cons_self t l
      · exact List.mem_cons_of_mem s hm

lemma sum_map_div_mul (l : List Stock) (T : Rat) :
    (l.map (fun s => s.cpVal * s.quantity / T * 100)).sum
      = (l.map (fun s => s.cpVal * s.quantity)).sum / T * 100 := by
  induction l with
  | nil => simp
  | cons s l ih =>
      simp only [List.map_cons, List.sum_cons, ih]
      ring

lemma distributionOf_map_stock (l : List Stock) (T : Rat) :
    (distributionOf l T).map DistEntry.stock = l := by
  unfold distributionOf
  induction l with
  | nil => rfl
  | cons s l ih => simp [ih]

lemma distributionOf_map_percentage (l : List Stock) (T : Rat) :
    (distributionOf l T).map (fun d => d.percentage)
      = l.map (fun s => s.cpVal * s.quantity / T * 100) := by
  unfold distributionOf
  induction l with
  | nil => rfl
  | cons s l ih => simp [ih]

/-- C1: fails on the code. A successful update replaces the matching element
by the remote-returned record, but `handleSaveEdit` then recomputes metrics
from the captured pre-mutation `stocks` value (App.js line 153): here the
remote returns a price of 20, the post-mutation list is `[c1Updated]`, yet
the stored metrics are those of the pre-mutation list `[c1Stock]`, which
differ from the metrics of the post-mutation list. -/
theorem C1_update_metrics_from_stale_list :
    (handleSaveEdit c1State (Except.ok c1Updated)).1.stocks = [c1Updated] ∧
    (handleSaveEdit c1State (Except.ok c1Updated)).1.portfolioMetrics
      = fetchPortfolioMetrics [c1Stock] ∧
    fetchPortfolioMetrics [c1Stock] ≠ fetchPortfolioMetrics [c1Updated] := by
  refine ⟨?_, ?_, ?_⟩
  · simp [handleSaveEdit, c1State, c1Stock, c1Updated, editFormOf, formMissing, formNonPositive]
    norm_num
  · simp [handleSaveEdit, c1State, c1Stock, c1Updated, editFormOf, formMissing, formNonPositive]
    norm_num
  · simp [c1Stock, c1Updated, fetchPortfolioMetrics, validStocksOf, isValidStock, totalValueOf,
          topStockOf, topStep, distributionOf, Stock.cpVal]

/-- C2: fails on the code. `fetchPortfolioMetrics` stores `null` (modelled
`none`) for the empty collection instead of the canonical empty metrics
value, while a non-empty collection with no eligible holding does get the
canonical empty value `{totalValue := 0, topStock := none,
portfolioDistribution := []}`. -/
theorem C2_empty_collection_metrics_null :
    fetchPortfolioMetrics [] = none ∧
    fetchPortfolioMetrics [⟨1, "A", "AAA", 5, 1, none⟩]
      = some ⟨0, none, []⟩ := by
  refine ⟨rfl, ?_⟩
  simp [fetchPortfolioMetrics, validStocksOf, isValidStock, totalValueOf, topStockOf,
        distributionOf]

/-- C3 counterexample: on the empty collection the claim fails, because the
computation stores `null` rather than a metrics value whose `totalValue` is
the (empty, hence zero) sum over eligible holdings. -/
theorem C3_counterexample_empty_collection :
    ¬ Option.map PortfolioMetrics.totalValue (fetchPortfolioMetrics [])
        = some 0 := by
  decide

/-- C3 (amended to non-empty collections): for every non-empty holdings
collection, the computed metrics exclude every holding whose price is unset
or not strictly positive, or whose quantity is not strictly positive, from
totalValue, topHolding and the distribution: totalValue is the sum of
currentPrice * quantity over exactly the eligible holdings, the distribution
lists exactly the eligible holdings in input order, and the top holding is
always drawn from the eligible holdings (absent when none is eligible). -/
theorem C3_eligible_filter_sum_order (stocks : List Stock)
    (hne : stocks ≠ []) :
    ∃ m, fetchPortfolioMetrics stocks = some m ∧
      m.totalValue = ((stocks.filter (fun s => decide (EligibleSpec s))).map
          (fun s => s.cpVal * s.quantity)).sum ∧
      m.portfolioDistribution.map DistEntry.stock
        = stocks.filter (fun s => decide (EligibleSpec s)) ∧
      (∀ t, m.topStock = some t →
        t ∈ stocks.filter (fun s => decide (EligibleSpec s))) ∧
      (stocks.filter (fun s => decide (EligibleSpec s)) = [] → m.topStock = none) := by
  refine ⟨_, fetchPortfolioMetrics_eq_some stocks hne, ?_, ?_, ?_, ?_⟩
  · rw [← validStocksOf_eq_spec, ← totalValueOf_eq_sum]
  · rw [← validStocksOf_eq_spec]
    exact distributionOf_map_stock _ _
  · intro t ht
    rw [← validStocksOf_eq_spec]
    exact topStockOf_mem _ t ht
  · intro h
    rw [← validStocksOf_eq_spec] at h
    show topStockOf (validStocksOf stocks) = none
    rw [h]
    rfl

/-- C3 witness: the amended theorem applied to a concrete two-element
collection with one ineligible (unpriced) holding. -/
theorem C3_eligible_filter_sum_order_witness :
    ∃ m, fetchPortfolioMetrics
        [⟨1, "A", "AAA", 2, 1, some 10⟩, ⟨2, "B", "BBB", 5, 1, none⟩]
        = some m ∧
      m.totalValue = (([⟨1, "A", "AAA", 2, 1, some 10⟩,
            ⟨2, "B", "BBB", 5, 1, none⟩].filter
          (fun s => decide (EligibleSpec s))).map
          (fun s => s.cpVal * s.quantity)).sum ∧
      m.portfolioDistribution.map DistEntry.stock
        = [⟨1, "A", "AAA", 2, 1, some 10⟩, ⟨2, "B", "BBB", 5, 1, none⟩].filter
            (fun s => decide (EligibleSpec s)) ∧
      (∀ t, m.topStock = some t →
        t ∈ [⟨1, "A", "AAA", 2, 1, some 10⟩, ⟨2, "B", "BBB", 5, 1, none⟩].filter
            (fun s => decide (EligibleSpec s))) ∧
      ([⟨1, "A", "AAA", 2, 1, some 10⟩, ⟨2, "B", "BBB", 5, 1, none⟩].filter
          (fun s => decide (EligibleSpec s)) = [] → m.topStock = none) :=
  C3_eligible_filter_sum_order _ (List.cons_ne_nil _ _)

/-- C4: for every collection with at least one eligible holding, the computed
top stock is the first eligible holding attaining the maximum price: the
eligible holdings split, in input order, into a strictly cheaper prefix, the
top holding itself, and a suffix at most as expensive (so a tie at the
maximum resolves to the first in input order). -/
theorem C4_topStock_first_maximum (stocks : List Stock) (s0 : Stock)
    (hs0 : s0 ∈ stocks) (he : EligibleSpec s0) :
    ∃ m t l1 l2, fetchPortfolioMetrics stocks = some m ∧
      m.topStock = some t ∧
      stocks.filter (fun s => decide (EligibleSpec s)) = l1 ++ t :: l2 ∧
      (∀ v ∈ l1, v.cpVal < t.cpVal) ∧
      (∀ v ∈ l2, v.cpVal ≤ t.cpVal) := by
  have hne : stocks ≠ [] := by
    intro h
    rw [h] at hs0
    cases hs0
  have hmem : s0 ∈ validStocksOf stocks := by
    rw [validStocksOf_eq_spec]
    exact List.mem_filter.2 ⟨hs0, by simpa using he⟩
  have hvne : validStocksOf stocks ≠ [] := by
    intro h
    rw [h] at hmem
    cases hmem
  obtain ⟨u, l1, l2, hf, hsplit, hb, ha⟩ := topStockOf_first_max _ hvne
  refine ⟨_, u, l1, l2, fetchPortfolioMetrics_eq_some stocks hne, hf, ?_, hb, ha⟩
  rw [← validStocksOf_eq_spec]
  exact hsplit

/-- C4 witness: the theorem applied to the tied-top-price collection, where
both eligible holdings sit at the maximum price 30. -/
theorem C4_topStock_first_maximum_witness :
    ∃ m t l1 l2, fetchPortfolioMetrics c4Stocks = some m ∧
      m.topStock = some t ∧
      c4Stocks.filter (fun s => decide (EligibleSpec s)) = l1 ++ t :: l2 ∧
      (∀ v ∈ l1, v.cpVal < t.cpVal) ∧
      (∀ v ∈ l2, v.cpVal ≤ t.cpVal) :=
  C4_topStock_first_maximum c4Stocks ⟨1, "A", "AAA", 1, 1, some 30⟩
    (by simp [c4Stocks]) ⟨⟨30, rfl, by norm_num⟩, by norm_num⟩

/-- C5: whenever the computed distribution is non-empty, its percentages sum
to exactly 100 under exact rational arithmetic. -/
theorem C5_percentages_sum_100 (stocks : List Stock) (m : PortfolioMetrics)
    (hm : fetchPortfolioMetrics stocks = some m)
    (hne : m.portfolioDistribution ≠ []) :
    (m.portfolioDistribution.map (fun d => d.percentage)).sum = 100 := by
  rcases eq_or_ne stocks [] with rfl | hs
  · simp [fetchPortfolioMetrics] at hm
  · rw [fetchPortfolioMetrics_eq_some stocks hs] at hm
    obtain rfl := Option.some.inj hm
    have hdne : distributionOf (validStocksOf stocks)
        (totalValueOf (validStocksOf stocks)) ≠ [] := hne
    have hvne : validStocksOf stocks ≠ [] := by
      intro h
      exact hdne (by rw [h]; rfl)
    have hT : 0 < totalValueOf (validStocksOf stocks) :=
      totalValueOf_pos _ (fun u hu => mem_validStocksOf hu) hvne
    show ((distributionOf (validStocksOf stocks)
        (totalValueOf (validStocksOf stocks))).map (fun d => d.percentage)).sum = 100
    rw [distributionOf_map_percentage, sum_map_div_mul, ← totalValueOf_eq_sum,
        div_self (ne_of_gt hT)]
    norm_num

/-- C5 witness: the theorem applied to the scenario collection, whose
computed distribution carries percentages 40 and 60. -/
theorem C5_percentages_sum_100_witness :
    (c5Metrics.portfolioDistribution.map (fun d => d.percentage)).sum = 100 :=
  C5_percentages_sum_100 c5Stocks c5Metrics
    (by norm_num [c5Stocks, c5Metrics, fetchPortfolioMetrics, validStocksOf, isValidStock,
          totalValueOf, topStockOf, topStep, distributionOf, Stock.cpVal])
    (by simp [c5Metrics])

/-- C6: whenever a percentage is computed for some holding — that is, the
holding passed the eligibility filter and appears in the distribution map —
the total value it is divided by is non-zero (strictly positive), so the
division in the distribution computation never divides by zero. -/
theorem C6_percentage_divisor_nonzero (stocks : List Stock) (s : Stock)
    (hs : s ∈ validStocksOf stocks) :
    totalValueOf (validStocksOf stocks) ≠ 0 ∧
    ∃ m, fetchPortfolioMetrics stocks = some m ∧ m.totalValue ≠ 0 := by
  have hvne : validStocksOf stocks ≠ [] := by
    intro h
    rw [h] at hs
    cases hs
  have hpos : 0 < totalValueOf (validStocksOf stocks) :=
    totalValueOf_pos _ (fun u hu => mem_validStocksOf hu) hvne
  have hne : stocks ≠ [] := by
    intro h
    rw [h] at hs
    exact absurd hs (by simp [validStocksOf])
  exact ⟨ne_of_gt hpos, _, fetchPortfolioMetrics_eq_some stocks hne, ne_of_gt hpos⟩

/-- C6 witness: the theorem applied to a one-element eligible collection. -/
theorem C6_percentage_divisor_nonzero_witness :
    totalValueOf (validStocksOf c6Stocks) ≠ 0 ∧
    ∃ m, fetchPortfolioMetrics c6Stocks = some m ∧ m.totalValue ≠ 0 :=
  C6_percentage_divisor_nonzero c6Stocks ⟨1, "A", "AAA", 2, 1, some 10⟩
    (by norm_num [c6Stocks, validStocksOf, isValidStock])

/-- C7: an add whose form has a missing or empty field, or a non-positive
quantity or buy price, makes no network call (the returned flag is false for
every possible remote outcome), surfaces a validation error, and leaves the
holdings collection unchanged. -/
theorem C7_add_invalid_no_network (st : AppState) (remote : Except String Stock)
    (h : st.newStock.name = "" ∨ st.newStock.ticker = "" ∨
         st.newStock.quantity = none ∨ st.newStock.buyPrice = none ∨
         (∃ q, st.newStock.quantity = some q ∧ q ≤ 0) ∨
         (∃ q, st.newStock.buyPrice = some q ∧ q ≤ 0)) :
    (handleAddStock st remote).2 = false ∧
    (handleAddStock st remote).1.stocks = st.stocks ∧
    (handleAddStock st remote).1.error.isSome = true := by
  have hval : formMissing st.newStock = true ∨ formNonPositive st.newStock = true := by
    rcases h with h | h | h | h | ⟨q, hq, hq0⟩ | ⟨q, hq, hq0⟩
    · exact Or.inl (by simp [formMissing, h])
    · exact Or.inl (by simp [formMissing, h])
    · exact Or.inl (by simp [formMissing, h])
    · exact Or.inl (by simp [formMissing, h])
    · exact Or.inr (by simp [formNonPositive, hq, hq0])
    · exact Or.inr (by simp [formNonPositive, hq, hq0])
  rcases hval with hv | hv
  · simp [handleAddStock, hv]
  · cases hm : formMissing st.newStock
    · simp [handleAddStock, hm, hv]
    · simp [handleAddStock, hm]

/-- C7 witness: the theorem applied to a form whose name field is empty. -/
theorem C7_add_invalid_no_network_witness :
    (handleAddStock c7State (Except.ok ⟨2, "N", "NNN", 1, 2, none⟩)).2 = false ∧
    (handleAddStock c7State (Except.ok ⟨2, "N", "NNN", 1, 2, none⟩)).1.stocks
      = c7State.stocks ∧
    (handleAddStock c7State (Except.ok ⟨2, "N", "NNN", 1, 2, none⟩)).1.error.isSome
      = true :=
  C7_add_invalid_no_network c7State _ (Or.inl rfl)

/-- C8: for every state, when the remote call fails each mutating operation
leaves the holdings collection exactly as it was before the operation and
surfaces its operation-specific error message. For add and update the
returned flag witnesses that the remote call was actually issued (their
validation passed; otherwise no call fails); remove always issues the call. -/
theorem C8_remote_failure_atomic (st : AppState) (eA eU eD : String) (id : Nat) :
    ((handleAddStock st (Except.error eA)).2 = true →
      (handleAddStock st (Except.error eA)).1.stocks = st.stocks ∧
      (handleAddStock st (Except.error eA)).1.error = some "Failed to add stock.") ∧
    ((handleSaveEdit st (Except.error eU)).2 = true →
      (handleSaveEdit st (Except.error eU)).1.stocks = st.stocks ∧
      (handleSaveEdit st (Except.error eU)).1.error = some "Failed to update stock.") ∧
    ((handleDeleteStock st id (Except.error eD)).stocks = st.stocks ∧
      (handleDeleteStock st id (Except.error eD)).error = some "Failed to delete stock.") := by
  refine ⟨?_, ?_, ?_, ?_⟩
  · cases hm : formMissing st.newStock
    · cases hp : formNonPositive st.newStock
      · intro hcall
        simp [handleAddStock, hm, hp]
      · intro hcall
        simp [handleAddStock, hm, hp] at hcall
    · intro hcall
      simp [handleAddStock, hm] at hcall
  · cases he : st.editStock with
    | none =>
        intro hcall
        simp [handleSaveEdit, he] at hcall
    | some e =>
        cases hm : formMissing (editFormOf e)
        · cases hp : formNonPositive (editFormOf e)
          · intro hcall
            simp [handleSaveEdit, he, hm, hp]
          · intro hcall
            simp [handleSaveEdit, he, hm, hp] at hcall
        · intro hcall
          simp [handleSaveEdit, he, hm] at hcall
  · simp [handleDeleteStock]
  · simp [handleDeleteStock]

/-- C8 witness: the theorem applied to a concrete state whose add form and
edit buffer are valid, so both guarded conjuncts fire, with every remote
call failing. -/
theorem C8_remote_failure_atomic_witness :
    ((handleAddStock c8State (Except.error "down")).1.stocks = c8State.stocks ∧
      (handleAddStock c8State (Except.error "down")).1.error
        = some "Failed to add stock.") ∧
    ((handleSaveEdit c8State (Except.error "down")).1.stocks = c8State.stocks ∧
      (handleSaveEdit c8State (Except.error "down")).1.error
        = some "Failed to update stock.") ∧
    ((handleDeleteStock c8State 1 (Except.error "down")).stocks = c8State.stocks ∧
      (handleDeleteStock c8State 1 (Except.error "down")).error
        = some "Failed to delete stock.") :=
  ⟨(C8_remote_failure_atomic c8State "down" "down" "down" 1).1
      (by norm_num [handleAddStock, c8State, formMissing, formNonPositive]
          rw [if_neg (by decide)]),
   (C8_remote_failure_atomic c8State "down" "down" "down" 1).2.1
      (by norm_num [handleSaveEdit, c8State, formMissing, formNonPositive, editFormOf]
          rw [if_neg (by decide)]),
   (C8_remote_failure_atomic c8State "down" "down" "down" 1).2.2⟩

/-- C9 counterexample: a successful remove does not clear the previously
shown error. In this state the delete succeeds (the holding is removed from
the collection), yet the error message shown before the operation is still
present afterwards. -/
theorem C9_counterexample_delete_keeps_error :
    (handleDeleteStock c9State 1 (Except.ok ())).stocks = [] ∧
    (handleDeleteStock c9State 1 (Except.ok ())).error = some "Failed to add stock." := by
  constructor
  · norm_num [handleDeleteStock, c9State]
  · norm_num [handleDeleteStock, c9State]

/-- C9 (amended): for every state, a successful add (its remote call made
and succeeded) clears the previously shown error, while successful update
and remove leave the error state unchanged; each newly surfaced error
overwrites the previous one, so at most one error message is shown at a
time with the most recent one winning. -/
theorem C9_error_clearing_amended (st : AppState) (data : Stock) (id : Nat)
    (msg : String) :
    ((handleAddStock st (Except.ok data)).2 = true →
      (handleAddStock st (Except.ok data)).1.error = none) ∧
    ((handleSaveEdit st (Except.ok data)).2 = true →
      (handleSaveEdit st (Except.ok data)).1.error = st.error) ∧
    (handleDeleteStock st id (Except.ok ())).error = st.error ∧
    (handleDeleteStock st id (Except.error msg)).error = some "Failed to delete stock." := by
  refine ⟨?_, ?_, ?_, ?_⟩
  · cases hm : formMissing st.newStock
    · cases hp : formNonPositive st.newStock
      · intro hcall
        simp [handleAddStock, hm, hp]
      · intro hcall
        simp [handleAddStock, hm, hp] at hcall
    · intro hcall
      simp [handleAddStock, hm] at hcall
  · cases he : st.editStock with
    | none =>
        intro hcall
        simp [handleSaveEdit, he] at hcall
    | some e =>
        cases hm : formMissing (editFormOf e)
        · cases hp : formNonPositive (editFormOf e)
          · intro hcall
            simp [handleSaveEdit, he, hm, hp]
          · intro hcall
            simp [handleSaveEdit, he, hm, hp] at hcall
        · intro hcall
          simp [handleSaveEdit, he, hm] at hcall
  · simp [handleDeleteStock]
  · simp [handleDeleteStock]

/-- C9 witness: the amended theorem applied to a concrete state showing a
previous error, with a valid add form and a valid edit buffer so that the
guarded conjuncts fire. -/
theorem C9_error_clearing_amended_witness :
    (handleAddStock c9ValidState (Except.ok ⟨2, "N", "NNN", 1, 2, none⟩)).1.error = none ∧
    (handleSaveEdit c9ValidState (Except.ok ⟨2, "N", "NNN", 1, 2, none⟩)).1.error
      = c9ValidState.error ∧
    (handleDeleteStock c9ValidState 1 (Except.ok ())).error = c9ValidState.error ∧
    (handleDeleteStock c9ValidState 1 (Except.error "down")).error
      = some "Failed to delete stock." :=
  ⟨(C9_error_clearing_amended c9ValidState ⟨2, "N", "NNN", 1, 2, none⟩ 1 "down").1
      (by norm_num [handleAddStock, c9ValidState, formMissing, formNonPositive]
          rw [if_neg (by decide)]),
   (C9_error_clearing_amended c9ValidState ⟨2, "N", "NNN", 1, 2, none⟩ 1 "down").2.1
      (by norm_num [handleSaveEdit, c9ValidState, formMissing, formNonPositive, editFormOf]
          rw [if_neg (by decide)]),
   (C9_error_clearing_amended c9ValidState ⟨2, "N", "NNN", 1, 2, none⟩ 1 "down").2.2.1,
   (C9_error_clearing_amended c9ValidState ⟨2, "N", "NNN", 1, 2, none⟩ 1 "down").2.2.2⟩

/-- C10: the chart series built from the metrics has exactly as many colors
as distribution entries, with labels and values listed in distribution order,
and an absent or empty distribution yields the empty series rather than a
failure. -/
theorem C10_chart_series_parallel (pm : Option PortfolioMetrics) (color : Nat → String) :
    match pieChartData pm color with
    | some c =>
        c.labels = (pm.elim [] PortfolioMetrics.portfolioDistribution).map
            (fun d => d.stock.name) ∧
        c.data = (pm.elim [] PortfolioMetrics.portfolioDistribution).map
            (fun d => d.percentage) ∧
        c.backgroundColor.length
          = (pm.elim [] PortfolioMetrics.portfolioDistribution).length
    | none => pm.elim ([] : List DistEntry) PortfolioMetrics.portfolioDistribution = [] := by
  cases pm with
  | none => simp [pieChartData]
  | some m =>
      by_cases h : 0 < m.portfolioDistribution.length
      · simp [pieChartData, h]
      · have h0 : m.portfolioDistribution = [] :=
          List.length_eq_zero.1 (Nat.le_zero.1 (Nat.not_lt.1 h))
        simp [pieChartData, h0]
